import Mathlib

/-!
Verification of the jsl warning engine (pyjsl/warnings.py).

The development shallowly embeds the parts of the module that the checked
properties concern: the control-flow reachability analyzer
`_get_exit_points`, the detectors `missing_break`, `comparison_type_conv`,
`ambiguous_else_stmt` and `trailing_decimal_point`, and the registry
identifier check performed by the `lookfor` decorator.

Modelling conventions:
* An AST node is a `Node` with the fields the module reads: `kind`,
  `opcode`, `kids` (an ordered list of child slots, where an absent slot is
  `none`, matching Python `None` children), the text payload `atom` and the
  numeric payload `dval` (a rational stands in for the source's number).
* The Python exit-point set holds `None`, `tok.BREAK`, `tok.RETURN` and
  `tok.THROW`; these are the four `ExitPoint` constructors `NoExit`, `Brk`,
  `Ret` and `Thr`.
* Any Python exception other than `LintWarning` (failed tuple unpacking,
  attribute access on `None`, a failed `assert`, an index error) aborts the
  pass; such runs are modelled as `none` / `DetectResult.crash`.
* A detector either returns normally (`DetectResult.ok`) or raises
  `LintWarning(target)` (`DetectResult.warn target`); the target is a child
  slot, hence an `Option Node`.
-/

namespace JSL

/-- Node kinds (`tok.*`) used by the embedded functions; every other kind
behaves identically in the embedded code and is represented by `OTHERKIND`. -/
inductive Kind : Type where
  | LC | IF | SWITCH | CASE | DEFAULT | BREAK | CONTINUE | WITH | RETURN | THROW
  | TRY | RESERVED | LEXICALSCOPE | CATCH | SEMI | NAME | NUMBER | STRING
  | PRIMARY | DOT | EQOP | OTHERKIND
deriving DecidableEq, Repr

/-- Opcodes (`op.*`) read by the embedded detectors; all others are `OTHEROP`. -/
inductive Opcode : Type where
  | NOP | NULL | TRUE | FALSE | EQ | OTHEROP
deriving DecidableEq, Repr

/-- One way control can leave a statement: the Python set stores `None`
(fall-through), `tok.BREAK`, `tok.RETURN` or `tok.THROW`. -/
inductive ExitPoint : Type where
  | NoExit | Brk | Ret | Thr
deriving DecidableEq, Repr

/-- A syntax-tree node.  A child slot that holds no node (Python `None`)
is `none` in `kids`. -/
inductive Node : Type where
  | mk (kind : Kind) (opcode : Opcode) (kids : List (Option Node))
       (atom : String) (dval : Rat)

def Node.kind : Node → Kind
  | Node.mk k _ _ _ _ => k

def Node.opcode : Node → Opcode
  | Node.mk _ o _ _ _ => o

def Node.kids : Node → List (Option Node)
  | Node.mk _ _ ks _ _ => ks

def Node.atom : Node → String
  | Node.mk _ _ _ a _ => a

def Node.dval : Node → Rat
  | Node.mk _ _ _ _ d => d

/-- The post-processing of the `tok.SWITCH` branch of `_get_exit_points`
(lines 125-139): drop the fall-through marker accumulated from the cases,
turn `Break` into fall-through, then re-add fall-through when there is no
`default` case or the last case fell through.  Python's `set.remove` here
always finds `None`: the accumulator starts as `{None}` and only grows. -/
def switchFinish (acc : Finset ExitPoint) (hasDefault finalFallthru : Bool) :
    Finset ExitPoint :=
  let e1 := acc.erase ExitPoint.NoExit
  let e2 := if ExitPoint.Brk ∈ e1 then insert ExitPoint.NoExit (e1.erase ExitPoint.Brk)
            else e1
  let e3 := if hasDefault then e2 else insert ExitPoint.NoExit e2
  if finalFallthru then insert ExitPoint.NoExit e3 else e3

/-- The `finally` adjustment of the `tok.TRY` branch (lines 160-171): when
the finally block can fall through, its other exit reasons are added to the
try/catch exit set; otherwise the try/catch fall-through is removed before
the union. -/
def tryFinish (base finallyExits : Finset ExitPoint) : Finset ExitPoint :=
  if ExitPoint.NoExit ∈ finallyExits then
    base ∪ finallyExits.erase ExitPoint.NoExit
  else
    (base.erase ExitPoint.NoExit) ∪ finallyExits

mutual

/-- `_get_exit_points` (warnings.py lines 95-176).  `none` models a raised
exception (failed unpacking or `assert`); kinds without a dedicated branch
fall into the final catch-all `{NoExit}` exactly as in the source. -/
def get_exit_points : Node → Option (Finset ExitPoint)
  | Node.mk Kind.LC _ kids _ _ => lcFold kids {ExitPoint.NoExit}
  | Node.mk Kind.IF _ kids _ _ => ifExits kids
  | Node.mk Kind.SWITCH _ kids _ _ => switchExits kids
  | Node.mk Kind.BREAK _ _ _ _ => some {ExitPoint.Brk}
  | Node.mk Kind.WITH _ kids _ _ => withLast kids
  | Node.mk Kind.RETURN _ _ _ _ => some {ExitPoint.Ret}
  | Node.mk Kind.THROW _ _ _ _ => some {ExitPoint.Thr}
  | Node.mk Kind.TRY _ kids _ _ => tryExits kids
  | Node.mk Kind.CASE _ _ _ _ => some {ExitPoint.NoExit}
  | Node.mk Kind.DEFAULT _ _ _ _ => some {ExitPoint.NoExit}
  | Node.mk Kind.CONTINUE _ _ _ _ => some {ExitPoint.NoExit}
  | Node.mk Kind.RESERVED _ _ _ _ => some {ExitPoint.NoExit}
  | Node.mk Kind.LEXICALSCOPE _ _ _ _ => some {ExitPoint.NoExit}
  | Node.mk Kind.CATCH _ _ _ _ => some {ExitPoint.NoExit}
  | Node.mk Kind.SEMI _ _ _ _ => some {ExitPoint.NoExit}
  | Node.mk Kind.NAME _ _ _ _ => some {ExitPoint.NoExit}
  | Node.mk Kind.NUMBER _ _ _ _ => some {ExitPoint.NoExit}
  | Node.mk Kind.STRING _ _ _ _ => some {ExitPoint.NoExit}
  | Node.mk Kind.PRIMARY _ _ _ _ => some {ExitPoint.NoExit}
  | Node.mk Kind.DOT _ _ _ _ => some {ExitPoint.NoExit}
  | Node.mk Kind.EQOP _ _ _ _ => some {ExitPoint.NoExit}
  | Node.mk Kind.OTHERKIND _ _ _ _ => some {ExitPoint.NoExit}
termination_by n => sizeOf n

/-- The `tok.LC` loop (lines 98-104): before folding in each child, the
fall-through marker left by the previous children is removed; an absent
child slot contributes nothing (Python `if kid:`). -/
def lcFold : List (Option Node) → Finset ExitPoint → Option (Finset ExitPoint)
  | [], acc => some acc
  | none :: ks, acc => lcFold ks (acc.erase ExitPoint.NoExit)
  | some k :: ks, acc =>
      (get_exit_points k).bind fun e => lcFold ks ((acc.erase ExitPoint.NoExit) ∪ e)
termination_by ks _ => sizeOf ks

/-- The `tok.IF` branch (lines 105-110): the condition slot is never read;
the then branch must be a node (recursing into Python `None` raises); an
absent else contributes nothing. -/
def ifExits : List (Option Node) → Option (Finset ExitPoint)
  | [_, some thenN, none] => get_exit_points thenN
  | [_, some thenN, some elseN] =>
      (get_exit_points thenN).bind fun e1 =>
        (get_exit_points elseN).map fun e2 => e1 ∪ e2
  | _ => none
termination_by ks => sizeOf ks

/-- The `tok.SWITCH` branch (lines 111-139): unpack the discriminant and
the case-list node, fold over the cases, then post-process. -/
def switchExits : List (Option Node) → Option (Finset ExitPoint)
  | [_, some (Node.mk _ _ stmtsKids _ _)] =>
      (switchFold stmtsKids {ExitPoint.NoExit} false true).map fun r =>
        switchFinish r.1 r.2.1 r.2.2
  | _ => none
termination_by ks => sizeOf ks

/-- The `tok.SWITCH` loop (lines 118-123), accumulating the union of the
case-body exit sets, whether a `default` case was seen, and whether the
lexically last case body can fall through. -/
def switchFold : List (Option Node) → Finset ExitPoint → Bool → Bool →
    Option (Finset ExitPoint × Bool × Bool)
  | [], acc, hasDefault, finalFallthru => some (acc, hasDefault, finalFallthru)
  | none :: _, _, _, _ => none
  | some (Node.mk caseKind _ (_ :: some caseStmt :: []) _ _) :: ks, acc, hasDefault, _ =>
      (get_exit_points caseStmt).bind fun ce =>
        switchFold ks (acc ∪ ce)
          (hasDefault || decide (caseKind = Kind.DEFAULT))
          (decide (ExitPoint.NoExit ∈ ce))
  | some (Node.mk _ _ [] _ _) :: _, _, _, _ => none
  | some (Node.mk _ _ [_] _ _) :: _, _, _, _ => none
  | some (Node.mk _ _ (_ :: none :: []) _ _) :: _, _, _, _ => none
  | some (Node.mk _ _ (_ :: _ :: _ :: _) _ _) :: _, _, _, _ => none
termination_by ks _ _ _ => sizeOf ks

/-- The `tok.TRY` branch (lines 148-171).  The catch wrapper shape is
checked by the source's `assert`s (reserved node, lexical scope, catch node,
statement-block body); any mismatch aborts the pass. -/
def tryExits : List (Option Node) → Option (Finset ExitPoint)
  | [some tryN,
     some (Node.mk Kind.RESERVED _
       [some (Node.mk Kind.LEXICALSCOPE _
         [some (Node.mk Kind.CATCH _ [_, _, some catchBody] _ _)] _ _)] _ _),
     none] =>
      if catchBody.kind = Kind.LC then
        (get_exit_points tryN).bind fun te =>
          (get_exit_points catchBody).map fun ce => te ∪ ce
      else none
  | [some tryN,
     some (Node.mk Kind.RESERVED _
       [some (Node.mk Kind.LEXICALSCOPE _
         [some (Node.mk Kind.CATCH _ [_, _, some catchBody] _ _)] _ _)] _ _),
     some finallyN] =>
      if catchBody.kind = Kind.LC then
        (get_exit_points tryN).bind fun te =>
          (get_exit_points catchBody).bind fun ce =>
            (get_exit_points finallyN).map fun fe => tryFinish (te ∪ ce) fe
      else none
  | _ => none
termination_by ks => sizeOf ks

/-- The `tok.WITH` branch (line 143) delegates to the last child
(`node.kids[-1]`); an empty child list or an absent last slot aborts. -/
def withLast : List (Option Node) → Option (Finset ExitPoint)
  | [] => none
  | [none] => none
  | [some k] => get_exit_points k
  | _ :: ks => withLast ks
termination_by ks => sizeOf ks

end

/-- Outcome of running one detector on one visited node: return normally,
raise `LintWarning(target)`, or raise any other exception (modelled
uniformly as `crash`, which aborts the pass). -/
inductive DetectResult : Type where
  | crash
  | ok
  | warn (target : Option Node)

/-- The reachability analyzer as it is invoked from a traversal position:
the source function receives only the subtree, so the ancestor chain of the
position is not a parameter of the computation. -/
def exit_points_in_context (_chain : List (Nat × Kind)) (n : Node) :
    Option (Finset ExitPoint) :=
  get_exit_points n

/-- `missing_break` (lines 327-339).  The visited `case`/`default` node is
`node`; `siblings` is `node.parent.kids` and `i` is `node.node_index`
(the dispatcher guarantees `siblings[i]` is `node`). -/
def missing_break (node : Node) (siblings : List (Option Node)) (i : Nat) :
    DetectResult :=
  if i = siblings.length - 1 then DetectResult.ok
  else
    match node.kids[1]? with
    | some (some caseContents) =>
        if caseContents.kind = Kind.LC then
          if caseContents.kids.isEmpty then DetectResult.ok
          else
            match get_exit_points caseContents with
            | some eps =>
                if ExitPoint.NoExit ∈ eps then
                  match siblings[i + 1]? with
                  | some t => DetectResult.warn t
                  | none => DetectResult.crash
                else DetectResult.ok
            | none => DetectResult.crash
        else DetectResult.crash
    | _ => DetectResult.crash

/-- The operand shapes flagged by `comparison_type_conv` (lines 181-186):
a `null`/`true`/`false` literal, a numeric literal whose value is zero
(Python `not kid.dval`), or an empty string literal (`not kid.atom`). -/
def looseEqFlag (k : Node) : Bool :=
  (decide (k.kind = Kind.PRIMARY) &&
    (decide (k.opcode = Opcode.NULL) || decide (k.opcode = Opcode.TRUE) ||
     decide (k.opcode = Opcode.FALSE))) ||
  (decide (k.kind = Kind.NUMBER) && decide (k.dval = 0)) ||
  (decide (k.kind = Kind.STRING) && decide (k.atom = ""))

/-- The operand loop of `comparison_type_conv` (lines 180-186): the first
child matching one of the three shapes is flagged; a `None` child slot would
crash on the attribute access `kid.kind`. -/
def ctcScan : List (Option Node) → DetectResult
  | [] => DetectResult.ok
  | none :: _ => DetectResult.crash
  | some k :: ks => if looseEqFlag k then DetectResult.warn (some k) else ctcScan ks

/-- `comparison_type_conv` (lines 178-186), registered for `(EQOP, EQ)`. -/
def comparison_type_conv (node : Node) : DetectResult :=
  ctcScan node.kids

/-- The ancestor walk of `ambiguous_else_stmt` (lines 257-265).  `k` is the
kind of the current node `tmp`; `chain` lists, outward-in, each ancestor
step as (index of `tmp` in its parent, kind of the parent).  An exhausted
chain means `tmp.parent` is `None`, so `tmp.parent.kind` raises. -/
def aeWalk (elseN : Node) (k : Kind) : List (Nat × Kind) → DetectResult
  | [] => if k = Kind.LC then DetectResult.ok else DetectResult.crash
  | (i, pk) :: rest =>
      if k = Kind.LC then DetectResult.ok
      else if pk = Kind.IF ∧ i = 1 then DetectResult.warn (some elseN)
      else aeWalk elseN pk rest

/-- `ambiguous_else_stmt` (lines 250-265), registered for `IF`.  `chain` is
the visited node's ancestor context, innermost step first. -/
def ambiguous_else_stmt (node : Node) (chain : List (Nat × Kind)) : DetectResult :=
  match node.kids with
  | [_, _, none] => DetectResult.ok
  | [_, _, some elseN] => aeWalk elseN node.kind chain
  | _ => DetectResult.crash

mutual

/-- Pre-order traversal of a subtree that invokes `ambiguous_else_stmt` at
every node whose kind is its trigger key `IF`, mirroring the dispatcher;
`chain` is the ancestor context of `n`.  The results are listed in
visitation order. -/
def collectIfFindings (chain : List (Nat × Kind)) : Node → List DetectResult
  | Node.mk k o ks a d =>
      (if k = Kind.IF then [ambiguous_else_stmt (Node.mk k o ks a d) chain] else []) ++
        collectKids k chain 0 ks
termination_by n => sizeOf n

/-- Child traversal for `collectIfFindings`: child `i` of a node of kind
`pk` is visited with the extended ancestor chain `(i, pk) :: chain`. -/
def collectKids (pk : Kind) (chain : List (Nat × Kind)) (i : Nat) :
    List (Option Node) → List DetectResult
  | [] => []
  | none :: rest => collectKids pk chain (i + 1) rest
  | some k :: rest =>
      collectIfFindings ((i, pk) :: chain) k ++ collectKids pk chain (i + 1) rest
termination_by ks => sizeOf ks

end

/-- Python `s.endswith('.')`. -/
def endsWithDot (s : String) : Bool :=
  match s.data.getLast? with
  | some c => decide (c = '.')
  | none => false

/-- `trailing_decimal_point` (lines 404-409), registered for `NUMBER`;
`parent` is `node.parent` (accessing `.kind` on a missing parent raises). -/
def trailing_decimal_point (node : Node) (parent : Option Node) : DetectResult :=
  match parent with
  | none => DetectResult.crash
  | some p =>
      if p.kind = Kind.DOT then DetectResult.warn (some node)
      else if endsWithDot node.atom then DetectResult.warn (some node)
      else DetectResult.ok

/-- Python `name.rstrip('_')` on a character list. -/
def dropTrailingUnderscores : List Char → List Char
  | [] => []
  | c :: cs =>
      match dropTrailingUnderscores cs with
      | [] => if c = '_' then [] else [c]
      | rest => c :: rest

/-- `fn.func_name.rstrip('_')` (line 77): the detector identifier derived
from a detector function's name. -/
def detectorId (funcName : String) : String :=
  String.mk (dropTrailingUnderscores funcName.data)

/-- The keys of the `warnings` catalog dictionary (lines 27-72), in source
order. -/
def catalogKeys : List String :=
  ["comparison_type_conv", "default_not_at_end", "duplicate_case_in_switch",
   "missing_default_case", "with_statement", "useless_comparison",
   "use_of_label", "misplaced_regex", "assign_to_function_call",
   "ambiguous_else_stmt", "block_without_braces", "ambiguous_nested_stmt",
   "inc_dec_within_stmt", "comma_separated_stmts", "empty_statement",
   "missing_break", "missing_break_for_last_case", "multiple_plus_minus",
   "useless_assign", "unreachable_code", "meaningless_block", "useless_void",
   "parseint_missing_radix", "leading_decimal_point", "trailing_decimal_point",
   "octal_number", "trailing_comma_in_array", "useless_quotes",
   "mismatch_ctrl_comments", "redeclared_var", "undeclared_identifier",
   "unreferenced_identifier", "jsl_cc_not_understood", "nested_comment",
   "legacy_cc_not_understood", "var_hides_arg", "duplicate_formal",
   "missing_semicolon", "ambiguous_newline", "missing_option_explicit",
   "partial_option_explicit", "dup_option_explicit", "invalid_fallthru",
   "invalid_pass"]

/-- The names of every function passed through the `lookfor` decorator, in
source order: the active detectors (lines 178-427), including the variants
whose names end in underscores, and the placeholder no-op detectors with no
trigger keys (lines 429-479). -/
def decoratedNames : List String :=
  ["comparison_type_conv", "default_not_at_end", "duplicate_case_in_switch",
   "missing_default_case", "with_statement", "useless_comparison",
   "use_of_label", "misplaced_regex", "assign_to_function_call",
   "ambiguous_else_stmt", "block_without_braces", "ambiguous_nested_stmt",
   "inc_dec_within_stmt", "comma_separated_stmts", "empty_statement",
   "empty_statement_", "missing_break", "missing_break_for_last_case",
   "multiple_plus_minus", "multiple_plus_minus_", "useless_assign",
   "unreachable_code", "meaningless_block__", "useless_void",
   "parseint_missing_radix", "leading_decimal_point", "trailing_decimal_point",
   "octal_number", "trailing_comma_in_array", "useless_quotes",
   "mismatch_ctrl_comments", "redeclared_var", "undeclared_identifier",
   "jsl_cc_not_understood", "nested_comment", "legacy_cc_not_understood",
   "var_hides_arg", "duplicate_formal", "missing_semicolon",
   "ambiguous_newline", "missing_option_explicit", "partial_option_explicit",
   "dup_option_explicit"]

/-- The registry-build check: each decoration runs
`assert fn.warning in warnings` (line 78); the build succeeds exactly when
every decorated function's identifier is a catalog key. -/
def registryCheck (names : List String) : Bool :=
  names.all fun n => decide (detectorId n ∈ catalogKeys)

/-! ### Concrete trees used by witnesses and counterexamples -/

def leafRet : Node := Node.mk Kind.RETURN Opcode.NOP [] "" 0

def leafThr : Node := Node.mk Kind.THROW Opcode.NOP [] "" 0

def leafBrk : Node := Node.mk Kind.BREAK Opcode.NOP [] "" 0

/-- An expression statement `f();`. -/
def leafSemi : Node := Node.mk Kind.SEMI Opcode.NOP
  [some (Node.mk Kind.NAME Opcode.NOP [] "f" 0)] "" 0

def numOne : Node := Node.mk Kind.NUMBER Opcode.NOP [] "1" 1

def numZero : Node := Node.mk Kind.NUMBER Opcode.NOP [] "0" 0

def nameX : Node := Node.mk Kind.NAME Opcode.NOP [] "x" 0

/-! ### C8: determinism and self-containedness of the analyzer -/

/-- C8: the reachability analyzer is deterministic and self-contained: two
invocations of `get_exit_points` on the same subtree return identical sets,
and the result of an invocation made from a traversal position does not
depend on the position's ancestor context, only on the given subtree. -/
theorem exit_points_deterministic_self_contained :
    (∀ t1 t2 : Node, t1 = t2 → get_exit_points t1 = get_exit_points t2) ∧
    (∀ (t : Node) (c1 c2 : List (Nat × Kind)),
      exit_points_in_context c1 t = exit_points_in_context c2 t) :=
  ⟨fun _ _ h => by rw [h], fun _ _ _ => rfl⟩

/-- Witness for C8 at a concrete subtree and two concrete contexts. -/
theorem exit_points_deterministic_self_contained_witness :
    get_exit_points leafRet = get_exit_points leafRet ∧
    exit_points_in_context [] leafRet =
      exit_points_in_context [(0, Kind.LC)] leafRet :=
  ⟨exit_points_deterministic_self_contained.1 leafRet leafRet rfl,
   exit_points_deterministic_self_contained.2 leafRet [] [(0, Kind.LC)]⟩

/-! ### C9: the registry identifier check -/

/-- C9: building the registry succeeds on exactly the detector lists whose
identifiers (function names with trailing underscores stripped) all appear
in the warning catalog, and it does succeed on the full list of detectors
registered in this module, placeholders included. -/
theorem registry_identifiers_in_catalog :
    registryCheck decoratedNames = true ∧
    ∀ names : List String,
      registryCheck names = false ↔ ∃ n ∈ names, detectorId n ∉ catalogKeys := by
  refine ⟨by decide, fun names => ?_⟩
  rw [show (registryCheck names = false) = ¬(registryCheck names = true) by
    simp]
  simp [registryCheck, List.all_eq_true]

/-! ### C10: trailing_decimal_point -/

/-- C10: a numeric literal whose parent is a property-access (`DOT`) node is
always flagged, whether or not its text ends in a decimal point; when the
parent is not a `DOT` node the textual check decides the outcome. -/
theorem trailing_decimal_point_spec (node p : Node) :
    (p.kind = Kind.DOT →
      trailing_decimal_point node (some p) = DetectResult.warn (some node)) ∧
    (p.kind ≠ Kind.DOT → endsWithDot node.atom = true →
      trailing_decimal_point node (some p) = DetectResult.warn (some node)) ∧
    (p.kind ≠ Kind.DOT → endsWithDot node.atom = false →
      trailing_decimal_point node (some p) = DetectResult.ok) := by
  refine ⟨fun h => ?_, fun h h2 => ?_, fun h h2 => ?_⟩
  · simp [trailing_decimal_point, h]
  · simp [trailing_decimal_point, h, h2]
  · simp [trailing_decimal_point, h, h2]

/-- A numeric literal node `10` (its text does not end in a dot). -/
def numTen : Node := Node.mk Kind.NUMBER Opcode.NOP [] "10" 10

/-- A property-access parent, as in `10 .toString` after parsing. -/
def dotParent : Node := Node.mk Kind.DOT Opcode.NOP [some numTen] "" 0

/-- Witness for C10: the literal `10` under a `DOT` parent is flagged even
though its text has no trailing decimal point. -/
theorem trailing_decimal_point_spec_witness :
    trailing_decimal_point numTen (some dotParent) =
      DetectResult.warn (some numTen) :=
  (trailing_decimal_point_spec numTen dotParent).1 (by decide)

/-! ### C6: comparison_type_conv -/

/-- C6: for a loose equality comparison, the first operand that is a
`null`/`true`/`false` literal, a zero numeric literal, or an empty string
literal is flagged; when neither operand has one of these shapes no finding
is produced. -/
theorem comparison_type_conv_spec (o : Opcode) (a : String) (d : Rat)
    (x y : Node) :
    (looseEqFlag x = true →
      comparison_type_conv (Node.mk Kind.EQOP o [some x, some y] a d) =
        DetectResult.warn (some x)) ∧
    (looseEqFlag x = false → looseEqFlag y = true →
      comparison_type_conv (Node.mk Kind.EQOP o [some x, some y] a d) =
        DetectResult.warn (some y)) ∧
    (looseEqFlag x = false → looseEqFlag y = false →
      comparison_type_conv (Node.mk Kind.EQOP o [some x, some y] a d) =
        DetectResult.ok) := by
  refine ⟨fun hx => ?_, fun hx hy => ?_, fun hx hy => ?_⟩ <;>
    simp [comparison_type_conv, ctcScan, Node.kids, hx] <;>
    simp [hy]

/-- Witness for C6: `x == 0` flags the zero literal. -/
theorem comparison_type_conv_spec_witness :
    comparison_type_conv
        (Node.mk Kind.EQOP Opcode.EQ [some numZero, some nameX] "" 0) =
      DetectResult.warn (some numZero) :=
  (comparison_type_conv_spec Opcode.EQ "" 0 numZero nameX).1 (by decide)

/-! ### C7: ambiguous_else_stmt -/

def bLeaf : Node := Node.mk Kind.NAME Opcode.NOP [] "b" 0

/-- `g();` of the unbraced example. -/
def gStmt1 : Node := Node.mk Kind.SEMI Opcode.NOP
  [some (Node.mk Kind.NAME Opcode.NOP [] "g" 0)] "" 0

/-- `if (b) f(); else g();` — the inner if of the unbraced example. -/
def innerIf1 : Node := Node.mk Kind.IF Opcode.NOP
  [some bLeaf, some leafSemi, some gStmt1] "" 0

/-- `if (a) if (b) f(); else g();` — the outer if; its then slot holds the
inner if directly and its else slot is empty. -/
def outerIf1 : Node := Node.mk Kind.IF Opcode.NOP
  [some nameX, some innerIf1, none] "" 0

/-- The whole unbraced program as a top statement block. -/
def ambiguousElseTree : Node := Node.mk Kind.LC Opcode.NOP [some outerIf1] "" 0

def gStmt2 : Node := Node.mk Kind.SEMI Opcode.NOP
  [some (Node.mk Kind.NAME Opcode.NOP [] "g" 0)] "" 0

/-- `if (b) f();` — the inner if of the braced example (no else). -/
def innerIf2 : Node := Node.mk Kind.IF Opcode.NOP
  [some bLeaf, some leafSemi, none] "" 0

/-- `{ if (b) f(); }` — the braces around the inner if. -/
def braced2 : Node := Node.mk Kind.LC Opcode.NOP [some innerIf2] "" 0

/-- `if (a) { if (b) f(); } else g();` — the outer if of the braced example. -/
def outerIf2 : Node := Node.mk Kind.IF Opcode.NOP
  [some nameX, some braced2, some gStmt2] "" 0

/-- The whole braced program as a top statement block. -/
def bracedElseTree : Node := Node.mk Kind.LC Opcode.NOP [some outerIf2] "" 0

/-- C7: the ambiguous-else walk stops without a finding as soon as the
current node is a braced block, and flags the original else branch as soon
as the current node sits in the then slot of an enclosing `if`; on the tree
of `if (a) if (b) f(); else g();` the traversal produces exactly one
finding, on the inner if, targeting the else branch `g();`, and on the tree
of `if (a) { if (b) f(); } else g();` it produces none. -/
theorem ambiguous_else_spec :
    (∀ (e : Node) (chain : List (Nat × Kind)),
      aeWalk e Kind.LC chain = DetectResult.ok) ∧
    (∀ (e : Node) (k : Kind) (rest : List (Nat × Kind)), k ≠ Kind.LC →
      aeWalk e k ((1, Kind.IF) :: rest) = DetectResult.warn (some e)) ∧
    collectIfFindings [] ambiguousElseTree =
      [DetectResult.ok, DetectResult.warn (some gStmt1)] ∧
    collectIfFindings [] bracedElseTree = [DetectResult.ok, DetectResult.ok] := by
  refine ⟨fun e chain => ?_, fun e k rest hk => ?_, ?_, ?_⟩
  · cases chain <;> simp [aeWalk]
  · simp [aeWalk, hk]
  · simp [collectIfFindings, collectKids, ambiguous_else_stmt, aeWalk,
      ambiguousElseTree, outerIf1, innerIf1, gStmt1, leafSemi, bLeaf, nameX,
      Node.kind, Node.kids]
  · simp [collectIfFindings, collectKids, ambiguous_else_stmt, aeWalk,
      bracedElseTree, outerIf2, innerIf2, braced2, gStmt2, leafSemi, bLeaf,
      nameX, Node.kind, Node.kids]

/-- Witness for C7 discharging the hypothesis of the warning step: an
ancestor in the then slot of an enclosing `if` triggers the finding. -/
theorem ambiguous_else_spec_witness :
    aeWalk gStmt1 Kind.IF ((1, Kind.IF) :: []) = DetectResult.warn (some gStmt1) :=
  ambiguous_else_spec.2.1 gStmt1 Kind.IF [] (by decide)

/-! ### C2: missing_break -/

/-- A case with an empty body: `case 1:` directly followed by the next case. -/
def emptyBody : Node := Node.mk Kind.LC Opcode.NOP [] "" 0

def caseEmpty : Node := Node.mk Kind.CASE Opcode.NOP
  [some numOne, some emptyBody] "" 0

/-- `case 2: f();` (it is the last case, so its own body is irrelevant). -/
def caseTwo : Node := Node.mk Kind.CASE Opcode.NOP
  [some (Node.mk Kind.NUMBER Opcode.NOP [] "2" 2),
   some (Node.mk Kind.LC Opcode.NOP [some leafSemi] "" 0)] "" 0

def caseSiblings : List (Option Node) := [some caseEmpty, some caseTwo]

/-- Counterexample to C2 as stated: `caseEmpty` is a non-last case whose
body's exit set contains `NoExit` (an empty block falls through), yet
`missing_break` emits no finding, because the detector ignores empty case
bodies before consulting the reachability analyzer. -/
theorem missing_break_empty_case_counterexample :
    caseEmpty.kind = Kind.CASE ∧
    caseSiblings[0]? = some (some caseEmpty) ∧
    (0 : Nat) ≠ caseSiblings.length - 1 ∧
    caseEmpty.kids[1]? = some (some emptyBody) ∧
    get_exit_points emptyBody = some {ExitPoint.NoExit} ∧
    missing_break caseEmpty caseSiblings 0 = DetectResult.ok := by
  refine ⟨rfl, rfl, by decide, rfl, ?_, ?_⟩
  · simp [get_exit_points, lcFold, emptyBody]
  · simp [missing_break, caseSiblings, caseEmpty, emptyBody, Node.kids,
      Node.kind]

/-- C2 (amended: non-empty body required): for a `case`/`default` node that
is not the lexically last child of its switch and whose body is a non-empty
statement block, a finding targeting the next sibling slot is emitted
exactly when the body's exit set contains `NoExit`. -/
theorem missing_break_nonlast_case (node : Node) (siblings : List (Option Node))
    (i : Nat) (caseContents : Node) (eps : Finset ExitPoint)
    (hkind : node.kind = Kind.CASE ∨ node.kind = Kind.DEFAULT)
    (hsib : siblings[i]? = some (some node))
    (hlast : i ≠ siblings.length - 1)
    (hcc : node.kids[1]? = some (some caseContents))
    (hlc : caseContents.kind = Kind.LC)
    (hne : caseContents.kids ≠ [])
    (heps : get_exit_points caseContents = some eps) :
    (ExitPoint.NoExit ∈ eps →
      ∃ t, siblings[i + 1]? = some t ∧
        missing_break node siblings i = DetectResult.warn t) ∧
    (ExitPoint.NoExit ∉ eps → missing_break node siblings i = DetectResult.ok) := by
  have hi : i < siblings.length := by
    by_contra hge
    rw [List.getElem?_eq_none (Nat.le_of_not_lt hge)] at hsib
    exact Option.noConfusion hsib
  have hi1 : i + 1 < siblings.length := by omega
  obtain ⟨t, ht⟩ : ∃ t, siblings[i + 1]? = some t :=
    ⟨_, List.getElem?_eq_getElem hi1⟩
  have hemp : caseContents.kids.isEmpty = false := by
    cases h : caseContents.kids with
    | nil => exact absurd h hne
    | cons _ _ => simp [h]
  constructor
  · intro hmem
    exact ⟨t, ht, by simp [missing_break, hlast, hcc, hlc, hemp, heps, hmem, ht]⟩
  · intro hmem
    simp [missing_break, hlast, hcc, hlc, hemp, heps, hmem]

/-- `case 1: f();` — a non-last case whose non-empty body falls through. -/
def caseFall : Node := Node.mk Kind.CASE Opcode.NOP
  [some numOne, some (Node.mk Kind.LC Opcode.NOP [some leafSemi] "" 0)] "" 0

def fallSiblings : List (Option Node) := [some caseFall, some caseTwo]

/-- Witness for C2 (amended): the fallthrough case produces a finding on the
next sibling. -/
theorem missing_break_nonlast_case_witness :
    ∃ t, fallSiblings[1]? = some t ∧
      missing_break caseFall fallSiblings 0 = DetectResult.warn t :=
  (missing_break_nonlast_case caseFall fallSiblings 0
      (Node.mk Kind.LC Opcode.NOP [some leafSemi] "" 0) {ExitPoint.NoExit}
      (Or.inl rfl) rfl (by decide) rfl rfl (by simp [Node.kids])
      (by simp [get_exit_points, lcFold, leafSemi])).1 (by decide)

/-! ### C1: try/catch/finally -/

/-- C1 (amended): for a well-shaped try/catch node, let `te`, `ce`, `fe` be
the try, catch-body and finally exit sets.  When `fe` contains `NoExit`,
the result is `(te ∪ ce) ∪ (fe \\ {NoExit})`.  When `fe` does not contain
`NoExit`, the result is `((te ∪ ce) \\ {NoExit}) ∪ fe`: only the
fall-through exit is removed from the try/catch contribution, and the
abnormal exit reasons of the try and catch blocks survive. -/
theorem try_finally_exit_points (o o1 o2 o3 : Opcode) (a a1 a2 a3 : String)
    (d d1 d2 d3 : Rat) (c1 c2 : Option Node) (tryN catchBody finallyN : Node)
    (te ce fe : Finset ExitPoint)
    (hcb : catchBody.kind = Kind.LC)
    (hte : get_exit_points tryN = some te)
    (hce : get_exit_points catchBody = some ce)
    (hfe : get_exit_points finallyN = some fe) :
    get_exit_points (Node.mk Kind.TRY o
        [some tryN,
         some (Node.mk Kind.RESERVED o1
           [some (Node.mk Kind.LEXICALSCOPE o2
             [some (Node.mk Kind.CATCH o3 [c1, c2, some catchBody] a3 d3)]
             a2 d2)] a1 d1),
         some finallyN] a d) =
      some (if ExitPoint.NoExit ∈ fe then (te ∪ ce) ∪ fe.erase ExitPoint.NoExit
            else ((te ∪ ce).erase ExitPoint.NoExit) ∪ fe) := by
  simp [get_exit_points, tryExits, hcb, hte, hce, hfe, tryFinish]

/-- An empty catch handler `catch (e) {}` in the wrapper shape the source
asserts: reserved node, lexical scope, catch node, block body. -/
def emptyCatchBody : Node := Node.mk Kind.LC Opcode.NOP [] "" 0

def catchWrapper : Node := Node.mk Kind.RESERVED Opcode.NOP
  [some (Node.mk Kind.LEXICALSCOPE Opcode.NOP
    [some (Node.mk Kind.CATCH Opcode.NOP [none, none, some emptyCatchBody] "" 0)]
    "" 0)] "" 0

/-- `{ return; }` as a try block. -/
def tryBodyReturn : Node := Node.mk Kind.LC Opcode.NOP [some leafRet] "" 0

/-- `{ throw e; }` as a finally block: it never falls through. -/
def finallyThrows : Node := Node.mk Kind.LC Opcode.NOP [some leafThr] "" 0

/-- `try { return; } catch (e) {} finally { throw e; }`. -/
def tryReturnFinallyThrows : Node := Node.mk Kind.TRY Opcode.NOP
  [some tryBodyReturn, some catchWrapper, some finallyThrows] "" 0

/-- Counterexample to C1 as stated: the finally block's exit set `{Thr}`
does not contain `NoExit`, yet the node's exit set is `{Ret, Thr}`, not
finally's set alone — the `Return` from the try block survives. -/
theorem try_finally_supersedes_counterexample :
    get_exit_points finallyThrows = some {ExitPoint.Thr} ∧
    ExitPoint.NoExit ∉ ({ExitPoint.Thr} : Finset ExitPoint) ∧
    get_exit_points tryReturnFinallyThrows =
      some {ExitPoint.Ret, ExitPoint.Thr} ∧
    ({ExitPoint.Ret, ExitPoint.Thr} : Finset ExitPoint) ≠ {ExitPoint.Thr} := by
  refine ⟨?_, by decide, ?_, by decide⟩
  · simp [get_exit_points, lcFold, finallyThrows, leafThr]
  · simp [get_exit_points, tryExits, lcFold, tryFinish, tryReturnFinallyThrows,
      tryBodyReturn, finallyThrows, catchWrapper, emptyCatchBody, leafRet,
      leafThr, Node.kind]
    decide

/-- `{ f(); }` as a finally block that falls through. -/
def finallyFalls : Node := Node.mk Kind.LC Opcode.NOP [some leafSemi] "" 0

/-- `try { return; } catch (e) {} finally { f(); }`. -/
def tryReturnFinallyFalls : Node := Node.mk Kind.TRY Opcode.NOP
  [some tryBodyReturn, some catchWrapper, some finallyFalls] "" 0

/-- Witness for C1 (amended), at a finally block that falls through. -/
theorem try_finally_exit_points_witness :
    get_exit_points tryReturnFinallyFalls =
      some {ExitPoint.Ret, ExitPoint.NoExit} := by
  have h := try_finally_exit_points Opcode.NOP Opcode.NOP Opcode.NOP Opcode.NOP
    "" "" "" "" 0 0 0 0 none none tryBodyReturn emptyCatchBody finallyFalls
    {ExitPoint.Ret} {ExitPoint.NoExit} {ExitPoint.NoExit} rfl
    (by simp [get_exit_points, lcFold, tryBodyReturn, leafRet])
    (by simp [get_exit_points, lcFold, emptyCatchBody])
    (by simp [get_exit_points, lcFold, finallyFalls, leafSemi])
  rw [show tryReturnFinallyFalls = Node.mk Kind.TRY Opcode.NOP
      [some tryBodyReturn,
       some (Node.mk Kind.RESERVED Opcode.NOP
         [some (Node.mk Kind.LEXICALSCOPE Opcode.NOP
           [some (Node.mk Kind.CATCH Opcode.NOP [none, none, some emptyCatchBody]
             "" 0)] "" 0)] "" 0),
       some finallyFalls] "" 0 from rfl]
  rw [h]
  decide

/-! ### C3: the statement-block rule -/

/-- The exit sets of a block's children, in order; fails when a child slot
is absent or a child's analysis fails (so that the hypotheses of the block
rule below presuppose exactly what the claim presupposes: every child has
an exit set). -/
def kidsExits : List (Option Node) → Option (List (Finset ExitPoint))
  | [] => some []
  | none :: _ => none
  | some k :: ks =>
      (get_exit_points k).bind fun e => (kidsExits ks).map fun es => e :: es

/-- The `tok.LC` fold expressed on the children's exit sets. -/
def foldExits : List (Finset ExitPoint) → Finset ExitPoint → Finset ExitPoint
  | [], acc => acc
  | e :: es, acc => foldExits es ((acc.erase ExitPoint.NoExit) ∪ e)

/-- Union of a list of exit sets. -/
def listUnion (es : List (Finset ExitPoint)) : Finset ExitPoint :=
  es.foldr (fun a b => a ∪ b) ∅

theorem mem_listUnion (x : ExitPoint) (es : List (Finset ExitPoint)) :
    x ∈ listUnion es ↔ ∃ e ∈ es, x ∈ e := by
  induction es with
  | nil => simp [listUnion]
  | cons e es ih => simp [listUnion, List.foldr] at ih ⊢; rw [ih]

theorem lcFold_eq_foldExits (ks : List (Option Node))
    (es : List (Finset ExitPoint)) (acc : Finset ExitPoint)
    (h : kidsExits ks = some es) : lcFold ks acc = some (foldExits es acc) := by
  induction ks generalizing es acc with
  | nil =>
      simp [kidsExits] at h
      subst h
      simp [lcFold, foldExits]
  | cons c ks ih =>
      cases c with
      | none => simp [kidsExits] at h
      | some k =>
          simp only [kidsExits, Option.bind_eq_some, Option.map_eq_some'] at h
          obtain ⟨e, he, es2, hes2, rfl⟩ := h
          simp only [lcFold, he, Option.some_bind]
          rw [ih es2 _ hes2]
          simp [foldExits]

theorem kidsExits_ne_nil (ks : List (Option Node)) (es : List (Finset ExitPoint))
    (h : kidsExits ks = some es) (hne : ks ≠ []) : es ≠ [] := by
  cases ks with
  | nil => exact absurd rfl hne
  | cons c ks =>
      cases c with
      | none => simp [kidsExits] at h
      | some k =>
          simp only [kidsExits, Option.bind_eq_some, Option.map_eq_some'] at h
          obtain ⟨e, _, es2, _, rfl⟩ := h
          simp

theorem foldExits_char (es : List (Finset ExitPoint)) (acc : Finset ExitPoint)
    (hne : es ≠ []) :
    foldExits es acc =
      ((acc ∪ listUnion es).erase ExitPoint.NoExit) ∪
        ({ExitPoint.NoExit} ∩ (es.getLast?.getD ∅)) := by
  induction es generalizing acc with
  | nil => exact absurd rfl hne
  | cons e es ih =>
      cases es with
      | nil =>
          ext x
          by_cases hx : x = ExitPoint.NoExit <;>
            simp [foldExits, listUnion, hx, Finset.mem_erase, Finset.mem_union]
      | cons e2 es2 =>
          rw [show foldExits (e :: e2 :: es2) acc =
                foldExits (e2 :: es2) ((acc.erase ExitPoint.NoExit) ∪ e) from rfl,
              ih _ (by simp)]
          ext x
          by_cases hx : x = ExitPoint.NoExit <;>
            simp [listUnion, List.foldr, hx, Finset.mem_erase, Finset.mem_union]

/-- C3 (amended corollary): for a statement block whose child slots are all
present and analyzable, the exit set is the union of the children's exit
sets, except that `NoExit` is in the result exactly when it is in the last
child's exit set; consequently a block whose last child's exit set is
`{Return}` and whose earlier children's exit sets are all `{NoExit}` has
exit set exactly `{Return}`. -/
theorem block_exit_points_rule (o : Opcode) (a : String) (d : Rat)
    (ks : List (Option Node)) (es : List (Finset ExitPoint)) (E : Finset ExitPoint)
    (hne : ks ≠ []) (hes : kidsExits ks = some es)
    (hE : get_exit_points (Node.mk Kind.LC o ks a d) = some E) :
    ((∀ x, x ≠ ExitPoint.NoExit → (x ∈ E ↔ ∃ e ∈ es, x ∈ e)) ∧
      (ExitPoint.NoExit ∈ E ↔ ExitPoint.NoExit ∈ es.getLast?.getD ∅)) ∧
    (es.getLast?.getD ∅ = {ExitPoint.Ret} →
      (∀ e ∈ es.dropLast, e = {ExitPoint.NoExit}) → E = {ExitPoint.Ret}) := by
  have hesne : es ≠ [] := kidsExits_ne_nil ks es hes hne
  simp only [get_exit_points] at hE
  rw [lcFold_eq_foldExits ks es _ hes] at hE
  obtain rfl : E = foldExits es {ExitPoint.NoExit} := (Option.some.inj hE).symm
  rw [foldExits_char es _ hesne]
  refine ⟨⟨fun x hx => ?_, ?_⟩, fun hlastR hothers => ?_⟩
  · simp [Finset.mem_union, Finset.mem_erase, Finset.mem_inter,
      Finset.mem_singleton, hx, mem_listUnion]
  · simp [Finset.mem_union, Finset.mem_erase, Finset.mem_inter,
      Finset.mem_singleton]
  · obtain ⟨l, hl⟩ : ∃ l, es.getLast? = some l :=
      Option.isSome_iff_exists.mp (List.getLast?_isSome.mpr hesne)
    rw [hl] at hlastR
    simp only [Option.getD_some] at hlastR
    subst hlastR
    obtain ⟨ys, rfl⟩ := List.getLast?_eq_some_iff.mp hl
    rw [hl]
    simp only [Option.getD_some, List.dropLast_concat] at hothers ⊢
    ext x
    simp only [Finset.mem_union, Finset.mem_erase, Finset.mem_inter,
      Finset.mem_singleton, mem_listUnion, List.mem_append,
      List.mem_singleton]
    constructor
    · rintro (⟨hxne, hx | ⟨e, he | rfl, hxe⟩⟩ | ⟨rfl, hx⟩)
      · exact absurd hx hxne
      · rw [hothers e he] at hxe
        simp at hxe
        exact absurd hxe hxne
      · simpa using hxe
      · exact hx
    · rintro rfl
      exact Or.inl ⟨by decide, Or.inr ⟨{ExitPoint.Ret}, Or.inr rfl, by simp⟩⟩

/-- `if (x) throw e;` — a statement that is none of break, continue,
return, throw, but can exit abnormally. -/
def ifThrow : Node := Node.mk Kind.IF Opcode.NOP
  [some nameX, some leafThr, none] "" 0

/-- `{ if (x) throw e; return; }`. -/
def blockIfThrowReturn : Node := Node.mk Kind.LC Opcode.NOP
  [some ifThrow, some leafRet] "" 0

/-- Counterexample to C3 as stated: the block's last statement is a
`return` and its other statement is an `if` (none of
break/continue/return/throw), yet the block's exit set is `{Thr, Ret}`,
not the singleton `{Return}` — the throw escaping from inside the `if`
survives the fold. -/
theorem block_return_exit_counterexample :
    (ifThrow.kind ≠ Kind.BREAK ∧ ifThrow.kind ≠ Kind.CONTINUE ∧
      ifThrow.kind ≠ Kind.RETURN ∧ ifThrow.kind ≠ Kind.THROW) ∧
    leafRet.kind = Kind.RETURN ∧
    blockIfThrowReturn = Node.mk Kind.LC Opcode.NOP
      [some ifThrow, some leafRet] "" 0 ∧
    get_exit_points blockIfThrowReturn = some {ExitPoint.Thr, ExitPoint.Ret} ∧
    ({ExitPoint.Thr, ExitPoint.Ret} : Finset ExitPoint) ≠ {ExitPoint.Ret} := by
  refine ⟨by decide, rfl, rfl, ?_, by decide⟩
  simp [get_exit_points, lcFold, ifExits, blockIfThrowReturn, ifThrow,
    leafThr, leafRet, nameX]
  decide

/-- `{ f(); return; }`. -/
def blockSemiReturn : Node := Node.mk Kind.LC Opcode.NOP
  [some leafSemi, some leafRet] "" 0

/-- Witness for C3 at the block `{ f(); return; }`, whose child exit sets
are `[{NoExit}, {Ret}]` and whose own exit set is `{Ret}`. -/
theorem block_exit_points_rule_witness :
    (ExitPoint.NoExit ∈ ({ExitPoint.Ret} : Finset ExitPoint) ↔
      ExitPoint.NoExit ∈
        (([{ExitPoint.NoExit}, {ExitPoint.Ret}] :
          List (Finset ExitPoint)).getLast?.getD ∅)) ∧
    ({ExitPoint.Ret} : Finset ExitPoint) = {ExitPoint.Ret} := by
  have h := block_exit_points_rule Opcode.NOP "" 0 [some leafSemi, some leafRet]
    [{ExitPoint.NoExit}, {ExitPoint.Ret}] {ExitPoint.Ret} (by simp)
    (by simp [kidsExits, get_exit_points, leafSemi, leafRet])
    (by simp [get_exit_points, lcFold, leafSemi, leafRet]; try decide)
  exact ⟨h.1.2, h.2 (by decide) (by intro e he; simpa using he)⟩

/-! ### C4 and C5: switch properties -/

/-- Whether a child slot of a switch's case list is a `default` case node. -/
def isDefaultKid : Option Node → Bool
  | some n => decide (n.kind = Kind.DEFAULT)
  | none => false

theorem switchFold_hasDefault (ks : List (Option Node)) (acc : Finset ExitPoint)
    (hd f0 : Bool) (r : Finset ExitPoint × Bool × Bool)
    (h : switchFold ks acc hd f0 = some r) :
    r.2.1 = (hd || ks.any isDefaultKid) := by
  induction ks generalizing acc hd f0 with
  | nil =>
      simp only [switchFold, Option.some.injEq] at h
      subst h
      simp
  | cons c ks ih =>
      cases c with
      | none => simp [switchFold] at h
      | some cn =>
          obtain ⟨ck, co, ckids, ca, cd⟩ := cn
          rcases ckids with _ | ⟨v, _ | ⟨w, rest⟩⟩
          · simp [switchFold] at h
          · simp [switchFold] at h
          · cases w with
            | none =>
                cases rest with
                | nil => simp [switchFold] at h
                | cons x xs => simp [switchFold] at h
            | some cs =>
                cases rest with
                | cons x xs => simp [switchFold] at h
                | nil =>
                    simp only [switchFold, Option.bind_eq_some] at h
                    obtain ⟨ce, hce, h⟩ := h
                    rw [ih _ _ _ h]
                    simp [isDefaultKid, Node.kind, List.any_cons, Bool.or_assoc]

/-- C4: a switch with no `default` case always has `NoExit` in its exit
set, whatever the individual case bodies do. -/
theorem switch_no_default_noexit (o so : Opcode) (a sa : String) (d sd : Rat)
    (sk : Kind) (discr : Option Node) (caseKids : List (Option Node))
    (eps : Finset ExitPoint)
    (hnodef : ∀ c ∈ caseKids, isDefaultKid c = false)
    (heps : get_exit_points (Node.mk Kind.SWITCH o
      [discr, some (Node.mk sk so caseKids sa sd)] a d) = some eps) :
    ExitPoint.NoExit ∈ eps := by
  simp only [get_exit_points, switchExits] at heps
  cases hsf : switchFold caseKids {ExitPoint.NoExit} false true with
  | none => rw [hsf] at heps; simp at heps
  | some r =>
      rw [hsf] at heps
      simp only [Option.map_some'] at heps
      obtain rfl : switchFinish r.1 r.2.1 r.2.2 = eps := Option.some.inj heps
      have hnd : r.2.1 = false := by
        rw [switchFold_hasDefault caseKids _ _ _ r hsf]
        simp only [Bool.false_or, List.any_eq_false]
        intro x hx
        simp [hnodef x hx]
      rw [switchFinish, hnd]
      simp only [Bool.false_eq_true, if_false]
      split <;> simp

/-- `case 1: return;`. -/
def caseRetOnly : Node := Node.mk Kind.CASE Opcode.NOP
  [some numOne, some (Node.mk Kind.LC Opcode.NOP [some leafRet] "" 0)] "" 0

/-- Witness for C4: `switch (x) { case 1: return; }` (no default) has
`NoExit` in its exit set `{NoExit, Ret}`. -/
theorem switch_no_default_noexit_witness :
    ExitPoint.NoExit ∈ ({ExitPoint.NoExit, ExitPoint.Ret} : Finset ExitPoint) :=
  switch_no_default_noexit Opcode.NOP Opcode.NOP "" "" 0 0 Kind.LC (some nameX)
    [some caseRetOnly] {ExitPoint.NoExit, ExitPoint.Ret}
    (by
      intro c hc
      simp only [List.mem_singleton] at hc
      subst hc
      simp [isDefaultKid, caseRetOnly, Node.kind])
    (by
      simp [get_exit_points, switchExits, switchFold, switchFinish, lcFold,
        caseRetOnly, leafRet, numOne]
      try decide)

theorem switchFold_all_break (ks : List (Option Node)) (acc : Finset ExitPoint)
    (hd f0 : Bool) (hne : ks ≠ [])
    (hshape : ∀ c ∈ ks, ∃ cn v cs, c = some cn ∧ cn.kids = v :: some cs :: [] ∧
      get_exit_points cs = some {ExitPoint.Brk}) :
    switchFold ks acc hd f0 =
      some (acc ∪ {ExitPoint.Brk}, hd || ks.any isDefaultKid, false) := by
  induction ks generalizing acc hd f0 with
  | nil => exact absurd rfl hne
  | cons c ks ih =>
      obtain ⟨cn, v, cs, rfl, hkids, hcs⟩ := hshape _ (List.mem_cons_self _ _)
      obtain ⟨ck, co, ckids, ca, cd⟩ := cn
      simp only [Node.kids] at hkids
      subst hkids
      simp only [switchFold, hcs, Option.some_bind]
      rw [show (decide (ExitPoint.NoExit ∈ ({ExitPoint.Brk} : Finset ExitPoint)))
            = false by decide]
      cases ks with
      | nil =>
          simp [switchFold, isDefaultKid, Node.kind, Finset.union_assoc]
      | cons c2 ks2 =>
          rw [ih _ _ _ (by simp)
            (fun c hc => hshape c (List.mem_cons_of_mem _ hc))]
          simp [isDefaultKid, Node.kind, List.any_cons, Bool.or_assoc,
            Finset.union_assoc]

/-- C5: a switch that has a `default` case and in which every case body's
exit set is exactly `{Break}` has exit set exactly `{NoExit}`: each
`Break` is absorbed into fall-through past the switch. -/
theorem switch_all_break_default_noexit (o so : Opcode) (a sa : String)
    (d sd : Rat) (sk : Kind) (discr : Option Node)
    (caseKids : List (Option Node)) (hne : caseKids ≠ [])
    (hshape : ∀ c ∈ caseKids, ∃ cn v cs, c = some cn ∧
      cn.kids = v :: some cs :: [] ∧
      get_exit_points cs = some {ExitPoint.Brk})
    (hdef : ∃ c ∈ caseKids, ∃ cn, c = some cn ∧ cn.kind = Kind.DEFAULT) :
    get_exit_points (Node.mk Kind.SWITCH o
        [discr, some (Node.mk sk so caseKids sa sd)] a d) =
      some {ExitPoint.NoExit} := by
  have hany : caseKids.any isDefaultKid = true := by
    obtain ⟨c, hc, cn, rfl, hcn⟩ := hdef
    exact List.any_eq_true.mpr ⟨some cn, hc, by simp [isDefaultKid, hcn]⟩
  simp only [get_exit_points, switchExits]
  rw [switchFold_all_break caseKids {ExitPoint.NoExit} false true hne hshape,
    hany]
  simp only [Option.map_some', Bool.false_or]
  rw [show switchFinish ({ExitPoint.NoExit} ∪ {ExitPoint.Brk}) true false
        = {ExitPoint.NoExit} by decide]

/-- `case 1: break;`. -/
def caseBrk : Node := Node.mk Kind.CASE Opcode.NOP
  [some numOne, some (Node.mk Kind.LC Opcode.NOP [some leafBrk] "" 0)] "" 0

/-- `default: break;`. -/
def defaultBrk : Node := Node.mk Kind.DEFAULT Opcode.NOP
  [none, some (Node.mk Kind.LC Opcode.NOP [some leafBrk] "" 0)] "" 0

/-- Witness for C5: `switch (x) { case 1: break; default: break; }` has
exit set exactly `{NoExit}`. -/
theorem switch_all_break_default_noexit_witness :
    get_exit_points (Node.mk Kind.SWITCH Opcode.NOP
        [some nameX,
         some (Node.mk Kind.LC Opcode.NOP [some caseBrk, some defaultBrk] "" 0)]
        "" 0) =
      some {ExitPoint.NoExit} :=
  switch_all_break_default_noexit Opcode.NOP Opcode.NOP "" "" 0 0 Kind.LC
    (some nameX) [some caseBrk, some defaultBrk] (by simp)
    (by
      intro c hc
      simp only [List.mem_cons, List.not_mem_nil, or_false] at hc
      rcases hc with rfl | rfl
      · exact ⟨caseBrk, some numOne,
          Node.mk Kind.LC Opcode.NOP [some leafBrk] "" 0, rfl, rfl,
          by simp [get_exit_points, lcFold, leafBrk]; try decide⟩
      · exact ⟨defaultBrk, none,
          Node.mk Kind.LC Opcode.NOP [some leafBrk] "" 0, rfl, rfl,
          by simp [get_exit_points, lcFold, leafBrk]; try decide⟩)
    ⟨some defaultBrk, by simp, defaultBrk, rfl, rfl⟩

end JSL
